import Mathlib

/-!
# Verification of the zksol guest runtime core

A shallow embedding of the guest runtime of the `zksol` repository:
the compute meter (`main.rs`), the input serializer (`serializer.rs`),
the syscall implementations (`syscalls.rs`) and the `Pubkey` parser
(`runtime.rs`).  Machine integers (`u64`, `u8`, `usize`) are embedded as
`Nat` with explicit `% 2 ^ 64` (resp. `% 256`) where wrap-around can
occur; `saturating_sub` on `u64` is exactly truncated subtraction on
`Nat`.  Fallible operations return `Option` or an explicit result type.

External crate code that the guest calls (the `solana_sbpf` memory
mapping and the `bs58` decoder) is not part of the repository sources;
those pieces are modelled from the specification and are marked
`Modelled from the spec:` in their doc comments.  Everything else is a
direct transcription of the Rust sources.
-/

/-! ## Compute meter (`main.rs`, `SolanaContext`) -/

/-- Embedding of `SolanaContext` from `main.rs`: two `u64` counters,
represented as natural numbers (values are kept below `2 ^ 64`). -/
structure SolanaContext where
  compute_units_remaining : Nat
  compute_units_consumed : Nat
  deriving DecidableEq, Repr

/-- Embedding of `SolanaContext::consume_compute_units` from `main.rs`:

```text
let consumed = units.min(self.compute_units_remaining);
self.compute_units_remaining = self.compute_units_remaining.saturating_sub(units);
self.compute_units_consumed += consumed;
```

`u64::saturating_sub` is truncated `Nat` subtraction; the `+=` on
`compute_units_consumed` wraps modulo `2 ^ 64` (release-mode Rust
semantics for `u64` overflow). -/
def consume_compute_units (st : SolanaContext) (units : Nat) : SolanaContext :=
  { compute_units_remaining := st.compute_units_remaining - units
    compute_units_consumed :=
      (st.compute_units_consumed + Nat.min units st.compute_units_remaining) % 2 ^ 64 }

/-- `consume_gas` from `main.rs` just forwards to `consume_compute_units`. -/
def consume_gas (st : SolanaContext) (units : Nat) : SolanaContext :=
  consume_compute_units st units

/-- The fixed starting budget from `main.rs` (`compute_units_remaining: 200_000`). -/
def initial_compute_budget : Nat := 200000

/-- The meter state built in `main`, before the VM runs. -/
def initialContext : SolanaContext :=
  { compute_units_remaining := initial_compute_budget, compute_units_consumed := 0 }

theorem consume_remaining_eq (st : SolanaContext) (u : Nat) :
    (consume_compute_units st u).compute_units_remaining
      = st.compute_units_remaining - u := rfl

theorem consume_consumed_eq (st : SolanaContext) (u : Nat) :
    (consume_compute_units st u).compute_units_consumed
      = (st.compute_units_consumed + Nat.min u st.compute_units_remaining) % 2 ^ 64 := rfl

theorem consume_preserves_sum (st : SolanaContext) (u : Nat)
    (h : st.compute_units_consumed + st.compute_units_remaining < 2 ^ 64) :
    (consume_compute_units st u).compute_units_consumed
      + (consume_compute_units st u).compute_units_remaining
      = st.compute_units_consumed + st.compute_units_remaining := by
  simp only [consume_remaining_eq, consume_consumed_eq, Nat.min_def]
  split <;> (rw [Nat.mod_eq_of_lt (by omega)]; omega)

/-- C3: clamping charge semantics of `consume_compute_units`. -/
theorem consume_compute_units_spec (st : SolanaContext) (u : Nat)
    (h : st.compute_units_consumed + st.compute_units_remaining < 2 ^ 64) :
    (u ≤ st.compute_units_remaining →
      (consume_compute_units st u).compute_units_remaining
          = st.compute_units_remaining - u ∧
      (consume_compute_units st u).compute_units_consumed
          = st.compute_units_consumed + u) ∧
    (st.compute_units_remaining < u →
      (consume_compute_units st u).compute_units_remaining = 0 ∧
      (consume_compute_units st u).compute_units_consumed
          = st.compute_units_consumed + st.compute_units_remaining) := by
  simp only [consume_remaining_eq, consume_consumed_eq, Nat.min_def]
  constructor
  · intro hle
    refine ⟨trivial, ?_⟩
    rw [if_pos hle, Nat.mod_eq_of_lt (by omega)]
  · intro hlt
    refine ⟨by omega, ?_⟩
    rw [if_neg (by omega), Nat.mod_eq_of_lt (by omega)]

theorem consume_compute_units_spec_witness :
    (0 : Nat) + 200000 < 2 ^ 64 ∧
    ((5 ≤ 200000 →
      (consume_compute_units ⟨200000, 0⟩ 5).compute_units_remaining = 200000 - 5 ∧
      (consume_compute_units ⟨200000, 0⟩ 5).compute_units_consumed = 0 + 5) ∧
    (200000 < 5 →
      (consume_compute_units ⟨200000, 0⟩ 5).compute_units_remaining = 0 ∧
      (consume_compute_units ⟨200000, 0⟩ 5).compute_units_consumed = 0 + 200000)) :=
  ⟨by decide, consume_compute_units_spec ⟨200000, 0⟩ 5 (by decide)⟩

/-- The meter state after a sequence of charges, starting from budget `B`. -/
def runCharges (B : Nat) (us : List Nat) : SolanaContext :=
  us.foldl consume_compute_units { compute_units_remaining := B, compute_units_consumed := 0 }

theorem foldl_consume_sum (us : List Nat) (st : SolanaContext) (B : Nat)
    (hB : B < 2 ^ 64)
    (hst : st.compute_units_consumed + st.compute_units_remaining = B) :
    (us.foldl consume_compute_units st).compute_units_consumed
      + (us.foldl consume_compute_units st).compute_units_remaining = B := by
  induction us generalizing st with
  | nil => simpa using hst
  | cons u us ih =>
    simp only [List.foldl_cons]
    exact ih (consume_compute_units st u)
      ((consume_preserves_sum st u (by omega)).trans hst)

/-- C10: `remaining + consumed` is preserved by every charge, hence after any
sequence of charges from a fresh meter with budget `B` the sum is still `B`
and `consumed` never exceeds `B`. -/
theorem meter_sum_invariant (B : Nat) (us : List Nat) (hB : B < 2 ^ 64) :
    (runCharges B us).compute_units_consumed
        + (runCharges B us).compute_units_remaining = B ∧
    (runCharges B us).compute_units_consumed ≤ B := by
  have h := foldl_consume_sum us
    { compute_units_remaining := B, compute_units_consumed := 0 } B hB (by simp)
  simp only [runCharges]
  exact ⟨h, by omega⟩

theorem meter_sum_invariant_witness :
    (200000 : Nat) < 2 ^ 64 ∧
    ((runCharges 200000 [3, 250000]).compute_units_consumed
        + (runCharges 200000 [3, 250000]).compute_units_remaining = 200000 ∧
      (runCharges 200000 [3, 250000]).compute_units_consumed ≤ 200000) :=
  ⟨by decide, meter_sum_invariant 200000 [3, 250000] (by decide)⟩

/-! ## Input serializer (`serializer.rs`) -/

/-- `BPF_ALIGN_OF_U128` from `serializer.rs`. -/
def BPF_ALIGN_OF_U128 : Nat := 8

/-- `NON_DUP_MARKER` from `serializer.rs` (`u8::MAX`). -/
def NON_DUP_MARKER : Nat := 255

/-- `MAX_PERMITTED_DATA_INCREASE` from `serializer.rs` (10 KiB of growth padding). -/
def MAX_PERMITTED_DATA_INCREASE : Nat := 1024 * 10

/-- Rust `<*const u8>::align_offset`: the number of bytes to advance a byte
pointer with address `p` so that it becomes `a`-aligned. -/
def align_offset (p a : Nat) : Nat := (a - p % a) % a

/-- Embedding of `Account` from `runtime.rs`.  The two `Pubkey` fields are kept
as raw byte lists; the serializer theorems assume their length is 32, which the
Rust `[u8; 32]` representation guarantees. -/
structure Account where
  pubkey : List Nat
  is_signer : Bool
  is_writable : Bool
  lamports : Nat
  data : List Nat
  owner : List Nat
  executable : Bool
  rent_epoch : Nat
  deriving DecidableEq, Repr, Inhabited

/-- Rust `bool as u8`. -/
def bool_to_u8 (b : Bool) : Nat := if b then 1 else 0

/-- The `w` little-endian bytes of `n` (used for the `u64` writes of the
serializer, which emit `to_le` byte order). -/
def le_bytes : Nat → Nat → List Nat
  | 0, _ => []
  | w + 1, n => n % 256 :: le_bytes w (n / 256)

/-- The 8 little-endian bytes a `Serializer::write::<u64>` call emits. -/
def u64_le_bytes (n : Nat) : List Nat := le_bytes 8 n

/-- Embedding of the size pass of `Serializer::serialize_parameters`
(`serializer.rs` lines 123-143).  Note that the Rust code computes the
alignment term `(size as *const u8).align_offset(BPF_ALIGN_OF_U128)` from the
value of `size` *before* this account's contribution is added: in
`size += a + b + ... + (size as *const u8).align_offset(..)` the right-hand
side reads the pre-assignment `size`. -/
def size_pass (accounts : List Account) (instruction_data_len : Nat) : Nat :=
  let s := accounts.foldl
    (fun size account =>
      size + 1 + 1 + 1 + 1 + 4 + 32 + 32 + 8 + 8 + 8
        + account.data.length + MAX_PERMITTED_DATA_INCREASE
        + align_offset size BPF_ALIGN_OF_U128)
    8
  s + 8 + instruction_data_len + 32

/-- The header byte sequence each loop iteration of the write pass emits
before `write_account` runs (`serializer.rs` lines 151-159): dup marker, the
three flag bytes, 4 reserved zero bytes, pubkey, owner, lamports and data
length. -/
def write_account_header (buffer : List Nat) (a : Account) : List Nat :=
  buffer ++ [NON_DUP_MARKER]
    ++ [bool_to_u8 a.is_signer]
    ++ [bool_to_u8 a.is_writable]
    ++ [bool_to_u8 a.executable]
    ++ [0, 0, 0, 0]
    ++ a.pubkey
    ++ a.owner
    ++ u64_le_bytes a.lamports
    ++ u64_le_bytes a.data.length

/-- Embedding of `Serializer::write_account` (`serializer.rs` lines 98-106):
the data bytes followed by `MAX_PERMITTED_DATA_INCREASE` plus the alignment
fill, all zero.  The alignment term is computed from the buffer length *after*
the data was written. -/
def write_account (buffer : List Nat) (data : List Nat) : List Nat :=
  let b := buffer ++ data
  b ++ List.replicate
    (MAX_PERMITTED_DATA_INCREASE + align_offset b.length BPF_ALIGN_OF_U128) 0

/-- One iteration of the write-pass account loop (`serializer.rs` lines
150-171): header, `write_account`, rent epoch. -/
def write_one_account (buffer : List Nat) (a : Account) : List Nat :=
  write_account (write_account_header buffer a) a.data ++ u64_le_bytes a.rent_epoch

/-- The byte sequence emitted by the write pass of
`Serializer::serialize_parameters` (lines 149-175): account count, the account
loop, instruction-data length, instruction data, program id. -/
def write_pass (accounts : List Account) (instruction_data : List Nat)
    (program_id : List Nat) : List Nat :=
  accounts.foldl write_one_account (u64_le_bytes accounts.length)
    ++ u64_le_bytes instruction_data.length ++ instruction_data ++ program_id

theorem le_bytes_length (w n : Nat) : (le_bytes w n).length = w := by
  induction w generalizing n with
  | zero => rfl
  | succ w ih => simp [le_bytes, ih]

theorem u64_le_bytes_length (n : Nat) : (u64_le_bytes n).length = 8 :=
  le_bytes_length 8 n

theorem write_account_header_length (buffer : List Nat) (a : Account)
    (h1 : a.pubkey.length = 32) (h2 : a.owner.length = 32) :
    (write_account_header buffer a).length = buffer.length + 88 := by
  simp [write_account_header, u64_le_bytes, le_bytes_length, h1, h2]

/-- The single account used to exhibit the size/write mismatch: one data byte. -/
def acctOneByte : Account :=
  { pubkey := List.replicate 32 1, is_signer := true, is_writable := false,
    lamports := 7, data := [9], owner := List.replicate 32 2,
    executable := false, rent_epoch := 3 }

theorem write_account_length (buffer data : List Nat) :
    (write_account buffer data).length
      = buffer.length + data.length + MAX_PERMITTED_DATA_INCREASE
        + align_offset (buffer.length + data.length) BPF_ALIGN_OF_U128 := by
  simp [write_account, List.length_append, List.length_replicate]
  omega

theorem write_one_account_length (buffer : List Nat) (a : Account)
    (h1 : a.pubkey.length = 32) (h2 : a.owner.length = 32) :
    (write_one_account buffer a).length
      = buffer.length + 96 + a.data.length + MAX_PERMITTED_DATA_INCREASE
        + align_offset (buffer.length + 88 + a.data.length) BPF_ALIGN_OF_U128 := by
  simp [write_one_account, write_account_length,
    write_account_header_length buffer a h1 h2, u64_le_bytes, le_bytes_length]
  omega

/-- C1: on an account whose data length is not a multiple of 8 the size pass
and the write pass of `serialize_parameters` disagree — the size pass computes
its alignment fill from the running `size` *before* the account (a multiple of
8 here, so zero fill), while the write pass aligns the offset reached *after*
the data bytes.  With one account carrying 1 data byte and empty instruction
data the size pass yields 10385 bytes but the write pass emits 10392 bytes. -/
theorem size_write_parity_violation :
    size_pass [acctOneByte] 0 = 10385 ∧
    (write_pass [acctOneByte] [] (List.replicate 32 3)).length = 10392 ∧
    size_pass [acctOneByte] 0 ≠ (write_pass [acctOneByte] [] (List.replicate 32 3)).length := by
  have hd : acctOneByte.data.length = 1 := by simp [acctOneByte]
  have h := write_one_account_length (u64_le_bytes 1) acctOneByte
    (by simp [acctOneByte]) (by simp [acctOneByte])
  rw [u64_le_bytes_length, hd] at h
  have hw : (write_pass [acctOneByte] [] (List.replicate 32 3)).length = 10392 := by
    simp only [write_pass, List.foldl_cons, List.foldl_nil, List.length_append,
      List.length_singleton, List.length_nil, List.length_replicate, u64_le_bytes_length]
    rw [h]
    decide
  refine ⟨by decide, hw, ?_⟩
  rw [hw]
  decide

/-! ## Flat characterization of the write pass (C4, C7) -/

/-- The alignment fill the write pass inserts after the data of an account
that starts at buffer offset `off` (its data therefore ends at offset
`off + 88 + data.len`). -/
def account_pad (off : Nat) (a : Account) : Nat :=
  align_offset (off + 88 + a.data.length) BPF_ALIGN_OF_U128

/-- Total number of bytes one account occupies in the write-pass buffer when
it starts at offset `off`. -/
def account_size (off : Nat) (a : Account) : Nat :=
  96 + a.data.length + MAX_PERMITTED_DATA_INCREASE + account_pad off a

/-- The documented per-account field sequence, flattened: sentinel `0xFF`,
`is_signer`, `is_writable`, `executable`, 4 reserved zero bytes, the 32
identifier bytes, the 32 owner bytes, little-endian lamports, little-endian
data length, the raw data, the all-zero growth padding, and the little-endian
rent epoch. -/
def account_bytes (off : Nat) (a : Account) : List Nat :=
  NON_DUP_MARKER :: bool_to_u8 a.is_signer :: bool_to_u8 a.is_writable
    :: bool_to_u8 a.executable :: 0 :: 0 :: 0 :: 0
    :: (a.pubkey ++ a.owner ++ u64_le_bytes a.lamports
        ++ u64_le_bytes a.data.length ++ a.data
        ++ List.replicate (MAX_PERMITTED_DATA_INCREASE + account_pad off a) 0
        ++ u64_le_bytes a.rent_epoch)

/-- The flattened emission of a list of accounts starting at offset `off`. -/
def emit_accounts (off : Nat) : List Account → List Nat
  | [] => []
  | a :: rest => account_bytes off a ++ emit_accounts (off + account_size off a) rest

/-- Well-formedness of an embedded account: the two identifier fields are 32
bytes, as the Rust `[u8; 32]` representation guarantees, and the `u64` fields
are in `u64` range. -/
def Account.wf (a : Account) : Prop :=
  a.pubkey.length = 32 ∧ a.owner.length = 32 ∧ a.lamports < 2 ^ 64 ∧
    a.data.length < 2 ^ 64 ∧ a.rent_epoch < 2 ^ 64

theorem account_bytes_length (off : Nat) (a : Account)
    (h1 : a.pubkey.length = 32) (h2 : a.owner.length = 32) :
    (account_bytes off a).length = account_size off a := by
  simp [account_bytes, account_size, u64_le_bytes_length, h1, h2]
  omega

theorem write_one_account_eq (buffer : List Nat) (a : Account)
    (h1 : a.pubkey.length = 32) (h2 : a.owner.length = 32) :
    write_one_account buffer a = buffer ++ account_bytes buffer.length a := by
  have hlen : (write_account_header buffer a ++ a.data).length
      = buffer.length + 88 + a.data.length := by
    rw [List.length_append, write_account_header_length buffer a h1 h2]
  simp only [write_one_account, write_account]
  rw [hlen]
  simp [write_account_header, account_bytes, account_pad, List.append_assoc]

theorem foldl_write_eq (accounts : List Account) (buffer : List Nat)
    (hwf : ∀ a ∈ accounts, a.pubkey.length = 32 ∧ a.owner.length = 32) :
    accounts.foldl write_one_account buffer
      = buffer ++ emit_accounts buffer.length accounts := by
  induction accounts generalizing buffer with
  | nil => simp [emit_accounts]
  | cons a rest ih =>
    have h1 := (hwf a (by simp)).1
    have h2 := (hwf a (by simp)).2
    simp only [List.foldl_cons, emit_accounts]
    rw [ih (write_one_account buffer a) (fun x hx => hwf x (by simp [hx])),
      write_one_account_eq buffer a h1 h2, List.length_append,
      account_bytes_length buffer.length a h1 h2, List.append_assoc]

theorem write_pass_flat (accounts : List Account) (instr pid : List Nat)
    (hwf : ∀ a ∈ accounts, a.pubkey.length = 32 ∧ a.owner.length = 32) :
    write_pass accounts instr pid
      = u64_le_bytes accounts.length ++ emit_accounts 8 accounts
        ++ u64_le_bytes instr.length ++ instr ++ pid := by
  simp only [write_pass]
  rw [foldl_write_eq accounts (u64_le_bytes accounts.length) hwf,
    u64_le_bytes_length, List.append_assoc, List.append_assoc, List.append_assoc]

/-- C4: the write pass emits, for every account in order, exactly the
documented field sequence of `account_bytes` (sentinel `0xFF` for every
account — duplicates are never collapsed), preceded by the 8-byte account
count and followed by the little-endian instruction-data length, the
instruction-data bytes and the 32 program-identifier bytes at the tail. -/
theorem write_pass_layout (accounts : List Account) (instr pid : List Nat)
    (hwf : ∀ a ∈ accounts, a.pubkey.length = 32 ∧ a.owner.length = 32) :
    write_pass accounts instr pid
      = u64_le_bytes accounts.length ++ emit_accounts 8 accounts
        ++ u64_le_bytes instr.length ++ instr ++ pid :=
  write_pass_flat accounts instr pid hwf

/-- Two accounts sharing one identifier, used for the C4 witness. -/
def acctDupA : Account :=
  { pubkey := List.replicate 32 5, is_signer := false, is_writable := true,
    lamports := 11, data := [1, 2, 3], owner := List.replicate 32 6,
    executable := true, rent_epoch := 4 }

theorem write_pass_layout_witness :
    (∀ a ∈ [acctDupA, acctDupA], a.pubkey.length = 32 ∧ a.owner.length = 32) ∧
    write_pass [acctDupA, acctDupA] [7] (List.replicate 32 9)
      = u64_le_bytes 2 ++ emit_accounts 8 [acctDupA, acctDupA]
        ++ u64_le_bytes 1 ++ [7] ++ List.replicate 32 9 :=
  ⟨by decide, write_pass_layout [acctDupA, acctDupA] [7] (List.replicate 32 9) (by decide)⟩

/-! ## Alignment invariant (C7) -/

/-- Write-pass buffer content just before account `i` of the loop runs
(count prefix plus the first `i` accounts). -/
def buffer_before (accounts : List Account) (i : Nat) : List Nat :=
  (accounts.take i).foldl write_one_account (u64_le_bytes accounts.length)

/-- The buffer offset at which account `i`'s rent-epoch field begins during
the write pass: the length of the buffer after `write_account` has emitted
the account's data and growth padding, immediately before
`s.write::<u64>(account.rent_epoch.to_le())` runs. -/
def rent_epoch_offset (accounts : List Account) (i : Nat) : Nat :=
  (write_account
    (write_account_header (buffer_before accounts i) (accounts.getD i default))
    (accounts.getD i default).data).length

theorem write_account_length_mod8 (buffer data : List Nat) :
    (write_account buffer data).length % 8 = 0 := by
  rw [write_account_length]
  simp only [align_offset, MAX_PERMITTED_DATA_INCREASE, BPF_ALIGN_OF_U128]
  omega

/-- C7: for every account of the write pass, the offset immediately following
its data-plus-growth-padding segment — the offset at which the rent-epoch
field begins — is a multiple of 8.  (`write_account` always fills up to the
next 8-byte boundary and the 10 KiB growth constant is itself a multiple of
8, so this holds regardless of the offset the account starts at.) -/
theorem rent_epoch_offset_aligned (accounts : List Account) (i : Nat)
    (_h : i < accounts.length) : rent_epoch_offset accounts i % 8 = 0 :=
  write_account_length_mod8 _ _

theorem rent_epoch_offset_aligned_witness :
    0 < [acctDupA].length ∧ rent_epoch_offset [acctDupA] 0 % 8 = 0 :=
  ⟨by decide, rent_epoch_offset_aligned [acctDupA] 0 (by decide)⟩

/-! ## Independent re-parse of the buffer (C8)

The parser below follows the documented field order of the serialized
buffer — count, then per account: sentinel byte, three flag bytes, 4
reserved bytes, 32 identifier bytes, 32 owner bytes, little-endian
lamports, little-endian data length, the data bytes, the growth padding
(10 KiB plus the fill that makes the next field 8-byte aligned), the
little-endian rent epoch — and after the loop the little-endian
instruction-data length, the instruction bytes and the 32 program
identifier bytes. -/

/-- Value of a little-endian byte sequence. -/
def from_le_bytes : List Nat → Nat
  | [] => 0
  | b :: bs => b + 256 * from_le_bytes bs

theorem from_le_le_bytes (w n : Nat) :
    from_le_bytes (le_bytes w n) = n % 256 ^ w := by
  induction w generalizing n with
  | zero => simp [le_bytes, from_le_bytes, Nat.mod_one]
  | succ w ih =>
    rw [le_bytes, from_le_bytes, ih, pow_succ, mul_comm (256 ^ w) 256, Nat.mod_mul]

theorem from_le_u64 (n : Nat) (h : n < 2 ^ 64) :
    from_le_bytes (u64_le_bytes n) = n := by
  rw [u64_le_bytes, from_le_le_bytes]
  exact Nat.mod_eq_of_lt (by norm_num at h ⊢; omega)

/-- Take `n` bytes off the front of the stream. -/
def read_bytes (n : Nat) (l : List Nat) : Option (List Nat × List Nat) :=
  if n ≤ l.length then some (l.take n, l.drop n) else none

/-- Read one little-endian `u64`. -/
def read_u64 (l : List Nat) : Option (Nat × List Nat) :=
  match read_bytes 8 l with
  | some (bs, rest) => some (from_le_bytes bs, rest)
  | none => none

theorem read_bytes_append (n : Nat) (xs rest : List Nat) (h : xs.length = n) :
    read_bytes n (xs ++ rest) = some (xs, rest) := by
  subst h
  rw [read_bytes, if_pos (by simp)]
  simp

theorem read_u64_append (n : Nat) (rest : List Nat) (h : n < 2 ^ 64) :
    read_u64 (u64_le_bytes n ++ rest) = some (n, rest) := by
  rw [read_u64, read_bytes_append 8 _ rest (u64_le_bytes_length n)]
  simp [from_le_u64 n h]

theorem read_bytes_all (n : Nat) (l : List Nat) (h : l.length = n) :
    read_bytes n l = some (l, []) := by
  subst h
  rw [read_bytes, if_pos (Nat.le_refl _)]
  simp

/-- The result of re-parsing one serialized account. -/
structure ParsedAccount where
  dup_marker : Nat
  signer_flag : Nat
  writable_flag : Nat
  executable_flag : Nat
  pubkey : List Nat
  owner : List Nat
  lamports : Nat
  data : List Nat
  rent_epoch : Nat
  deriving DecidableEq, Repr

/-- Parse `n` accounts off the stream, following the documented field order.
`off` is the absolute buffer offset at which the current account starts; it
determines the size of the growth-padding fill (which pads the offset after
the data bytes up to the next 8-byte boundary, on top of the fixed 10 KiB). -/
def parse_accounts : Nat → Nat → List Nat → Option (List ParsedAccount × Nat × List Nat)
  | 0, off, l => some ([], off, l)
  | n + 1, off, l =>
    match l with
    | dup :: sg :: wr :: ex :: _r0 :: _r1 :: _r2 :: _r3 :: rest =>
      match read_bytes 32 rest with
      | some (key, rest1) =>
        match read_bytes 32 rest1 with
        | some (own, rest2) =>
          match read_u64 rest2 with
          | some (lam, rest3) =>
            match read_u64 rest3 with
            | some (dlen, rest4) =>
              match read_bytes dlen rest4 with
              | some (dat, rest5) =>
                match read_bytes (MAX_PERMITTED_DATA_INCREASE
                    + align_offset (off + 88 + dlen) BPF_ALIGN_OF_U128) rest5 with
                | some (_, rest6) =>
                  match read_u64 rest6 with
                  | some (rent, rest7) =>
                    match parse_accounts n (off + 96 + dlen
                        + (MAX_PERMITTED_DATA_INCREASE
                          + align_offset (off + 88 + dlen) BPF_ALIGN_OF_U128)) rest7 with
                    | some (accs, off2, rest8) =>
                      some (⟨dup, sg, wr, ex, key, own, lam, dat, rent⟩ :: accs, off2, rest8)
                    | none => none
                  | none => none
                | none => none
              | none => none
            | none => none
          | none => none
        | none => none
      | none => none
    | _ => none

/-- Re-parse a whole serialized buffer: count, accounts, instruction data,
program identifier; the buffer must be consumed exactly. -/
def parse_buffer (l : List Nat) : Option (List ParsedAccount × List Nat × List Nat) :=
  match read_u64 l with
  | some (count, rest) =>
    match parse_accounts count 8 rest with
    | some (accs, _, rest1) =>
      match read_u64 rest1 with
      | some (ilen, rest2) =>
        match read_bytes ilen rest2 with
        | some (instr, rest3) =>
          match read_bytes 32 rest3 with
          | some (pid, rest4) => if rest4 = [] then some (accs, instr, pid) else none
          | none => none
        | none => none
      | none => none
    | none => none
  | none => none

/-- The parsed image the re-parse is expected to reconstruct for an account. -/
def to_parsed (a : Account) : ParsedAccount :=
  { dup_marker := NON_DUP_MARKER, signer_flag := bool_to_u8 a.is_signer,
    writable_flag := bool_to_u8 a.is_writable,
    executable_flag := bool_to_u8 a.executable,
    pubkey := a.pubkey, owner := a.owner, lamports := a.lamports,
    data := a.data, rent_epoch := a.rent_epoch }

/-- End offset of the flattened emission starting at `off`. -/
def emit_end (off : Nat) : List Account → Nat
  | [] => off
  | a :: tl => emit_end (off + account_size off a) tl

theorem parse_emit (accounts : List Account) (off : Nat) (rest : List Nat)
    (hwf : ∀ a ∈ accounts, a.wf) :
    parse_accounts accounts.length off (emit_accounts off accounts ++ rest)
      = some (accounts.map to_parsed, emit_end off accounts, rest) := by
  induction accounts generalizing off rest with
  | nil => simp [parse_accounts, emit_accounts, emit_end]
  | cons a tl ih =>
    obtain ⟨h1, h2, h3, h4, h5⟩ := hwf a (by simp)
    have hoff : off + 96 + a.data.length
        + (MAX_PERMITTED_DATA_INCREASE
          + align_offset (off + 88 + a.data.length) BPF_ALIGN_OF_U128)
        = off + account_size off a := by
      simp only [account_size, account_pad]
      omega
    have htl := ih (off + account_size off a) rest (fun x hx => hwf x (by simp [hx]))
    simp only [emit_accounts, account_bytes, emit_end, List.length_cons, List.map_cons,
      List.cons_append, List.append_assoc, parse_accounts, account_pad,
      read_bytes_append, read_u64_append, read_bytes_all, h1, h2, h3, h4, h5,
      List.length_replicate, hoff, htl, to_parsed]

/-- C8: re-parsing the write-pass buffer according to the documented field
order reconstructs identifier, owner, lamports, flag bytes, data bytes and
rent epoch of every account, in the original order, together with the
instruction data and program identifier. -/
theorem serialize_roundtrip (accounts : List Account) (instr pid : List Nat)
    (hwf : ∀ a ∈ accounts, a.wf) (hn : accounts.length < 2 ^ 64)
    (hi : instr.length < 2 ^ 64) (hp : pid.length = 32) :
    parse_buffer (write_pass accounts instr pid)
      = some (accounts.map to_parsed, instr, pid) := by
  have hw : ∀ a ∈ accounts, a.pubkey.length = 32 ∧ a.owner.length = 32 :=
    fun a ha => ⟨(hwf a ha).1, (hwf a ha).2.1⟩
  rw [write_pass_flat accounts instr pid hw]
  have hpa := parse_emit accounts 8 (u64_le_bytes instr.length ++ (instr ++ pid)) hwf
  simp only [parse_buffer, List.append_assoc, read_u64_append, read_bytes_append,
    read_bytes_all, hn, hi, hp, hpa, List.length_replicate, if_true]

/-- Round-trip witness accounts: data lengths 0, 63 and exactly the 10 KiB
growth-padding constant. -/
def acctEmpty : Account :=
  { pubkey := List.replicate 32 11, is_signer := true, is_writable := true,
    lamports := 1000, data := [], owner := List.replicate 32 12,
    executable := false, rent_epoch := 0 }

def acctSixtyThree : Account :=
  { pubkey := List.replicate 32 13, is_signer := false, is_writable := false,
    lamports := 0, data := List.replicate 63 21, owner := List.replicate 32 14,
    executable := false, rent_epoch := 2 }

def acctTenKiB : Account :=
  { pubkey := List.replicate 32 15, is_signer := false, is_writable := true,
    lamports := 3, data := List.replicate MAX_PERMITTED_DATA_INCREASE 22,
    owner := List.replicate 32 16, executable := true, rent_epoch := 1 }

theorem roundtrip_witness_wf : ∀ a ∈ [acctEmpty, acctSixtyThree, acctTenKiB], a.wf := by
  simp only [List.mem_cons, List.not_mem_nil, or_false, forall_eq_or_imp, forall_eq,
    Account.wf, acctEmpty, acctSixtyThree, acctTenKiB, List.length_replicate,
    List.length_nil]
  norm_num [MAX_PERMITTED_DATA_INCREASE]

theorem serialize_roundtrip_witness :
    ((∀ a ∈ [acctEmpty, acctSixtyThree, acctTenKiB], a.wf) ∧
      ([acctEmpty, acctSixtyThree, acctTenKiB].length : Nat) < 2 ^ 64 ∧
      ([5] : List Nat).length < 2 ^ 64 ∧ (List.replicate 32 9 : List Nat).length = 32) ∧
    parse_buffer (write_pass [acctEmpty, acctSixtyThree, acctTenKiB] [5] (List.replicate 32 9))
      = some ([acctEmpty, acctSixtyThree, acctTenKiB].map to_parsed, [5], List.replicate 32 9) :=
  ⟨⟨roundtrip_witness_wf, by simp, by simp, by simp⟩,
    serialize_roundtrip [acctEmpty, acctSixtyThree, acctTenKiB] [5] (List.replicate 32 9)
      roundtrip_witness_wf (by simp) (by simp) (by simp)⟩

/-! ## Memory regions and syscalls (`syscalls.rs`) -/

/-- A mapped virtual-memory region: start address, backing bytes, mutability. -/
structure MemRegion where
  start : Nat
  bytes : List Nat
  writable : Bool
  deriving DecidableEq, Repr

/-- The virtual address space handed to a syscall. -/
abbrev MemLayout := List MemRegion

/-- `solana_sbpf::memory_region::AccessType`. -/
inductive AccessType where
  | load
  | store
  deriving DecidableEq, Repr

/-- Modelled from the spec: resolution of one address/length operand by
`MemoryMapping::map` (the `solana_sbpf` crate, not part of this repository's
sources) — it succeeds exactly when `[addr, addr + len)` lies inside a mapped
region whose mutability admits the access mode, and fails otherwise. -/
def region_ok (r : MemRegion) (access : AccessType) (addr len : Nat) : Bool :=
  decide (r.start ≤ addr) && decide (addr + len ≤ r.start + r.bytes.length)
    && (match access with
        | AccessType.load => true
        | AccessType.store => r.writable)

/-- Modelled from the spec: find the mapped region an operand resolves in. -/
def resolve (layout : MemLayout) (access : AccessType) (addr len : Nat) :
    Option MemRegion :=
  layout.find? fun r => region_ok r access addr len

/-- Read `len` bytes at virtual address `addr` (load access). -/
def read_range (layout : MemLayout) (addr len : Nat) : Option (List Nat) :=
  match resolve layout AccessType.load addr len with
  | some r => some ((r.bytes.drop (addr - r.start)).take len)
  | none => none

/-- Overwrite bytes of a region at virtual address `addr`. -/
def write_region (r : MemRegion) (addr : Nat) (data : List Nat) : MemRegion :=
  { r with bytes := r.bytes.take (addr - r.start) ++ data
      ++ r.bytes.drop (addr - r.start + data.length) }

/-- Write `data` at virtual address `addr` into the first region that admits
a store of that size. -/
def write_range : MemLayout → Nat → List Nat → MemLayout
  | [], _, _ => []
  | r :: rs, addr, data =>
    if region_ok r AccessType.store addr data.length
    then write_region r addr data :: rs
    else r :: write_range rs addr data

/-- The execution faults a syscall can report (spec §7): `MemoryFault` for a
failed resolution, `InvalidText` for a non-UTF-8 log message,
`ProgramAborted` for the abort/panic syscall. -/
inductive SyscallError where
  | memoryFault
  | invalidText
  | programAborted
  deriving DecidableEq, Repr

/-- Outcome of one syscall: a returned `u64` with the memory after the call,
a returned error, or a Rust panic (`unwrap` on an `Err`). -/
inductive SyscallEffect where
  | success : Nat → MemLayout → SyscallEffect
  | failure : SyscallError → SyscallEffect
  | panicked : SyscallEffect
  deriving DecidableEq, Repr

/-- A UTF-8 continuation byte (`0x80..=0xBF`). -/
def utf8_cont (b : Nat) : Bool := decide (0x80 ≤ b) && decide (b ≤ 0xBF)

/-- UTF-8 validity of a byte sequence, as checked by Rust
`core::str::from_utf8`. -/
def utf8_valid : List Nat → Bool
  | [] => true
  | b :: rest =>
    if b ≤ 0x7F then utf8_valid rest
    else if 0xC2 ≤ b ∧ b ≤ 0xDF then
      match rest with
      | c :: r => utf8_cont c && utf8_valid r
      | [] => false
    else if b = 0xE0 then
      match rest with
      | c1 :: c2 :: r =>
        decide (0xA0 ≤ c1) && decide (c1 ≤ 0xBF) && utf8_cont c2 && utf8_valid r
      | _ => false
    else if 0xE1 ≤ b ∧ b ≤ 0xEC then
      match rest with
      | c1 :: c2 :: r => utf8_cont c1 && utf8_cont c2 && utf8_valid r
      | _ => false
    else if b = 0xED then
      match rest with
      | c1 :: c2 :: r =>
        decide (0x80 ≤ c1) && decide (c1 ≤ 0x9F) && utf8_cont c2 && utf8_valid r
      | _ => false
    else if 0xEE ≤ b ∧ b ≤ 0xEF then
      match rest with
      | c1 :: c2 :: r => utf8_cont c1 && utf8_cont c2 && utf8_valid r
      | _ => false
    else if b = 0xF0 then
      match rest with
      | c1 :: c2 :: c3 :: r =>
        decide (0x90 ≤ c1) && decide (c1 ≤ 0xBF) && utf8_cont c2 && utf8_cont c3
          && utf8_valid r
      | _ => false
    else if 0xF1 ≤ b ∧ b ≤ 0xF3 then
      match rest with
      | c1 :: c2 :: c3 :: r =>
        utf8_cont c1 && utf8_cont c2 && utf8_cont c3 && utf8_valid r
      | _ => false
    else if b = 0xF4 then
      match rest with
      | c1 :: c2 :: c3 :: r =>
        decide (0x80 ≤ c1) && decide (c1 ≤ 0x8F) && utf8_cont c2 && utf8_cont c3
          && utf8_valid r
      | _ => false
    else false
termination_by l => l.length
decreasing_by all_goals (simp; try omega)

/-- Embedding of `SyscallLog` (`syscalls.rs` lines 14-43).  Note the Rust code
resolves the source range with
`memory_mapping.map(..).map_err(|e| format!(..)).unwrap()`: on a failed
resolution it *panics* via `unwrap` instead of returning the error.  A valid
message is logged and `0` is returned; a non-UTF-8 message returns an error. -/
def syscall_log (st : SolanaContext) (layout : MemLayout) (addr len : Nat) :
    SolanaContext × SyscallEffect :=
  let st2 := consume_gas st 1
  match read_range layout addr len with
  | none => (st2, SyscallEffect.panicked)
  | some bytes =>
    if utf8_valid bytes then (st2, SyscallEffect.success 0 layout)
    else (st2, SyscallEffect.failure SyscallError.invalidText)

/-- Embedding of `SyscallAbort` (`syscalls.rs` lines 47-64): no memory access,
no charge to the meter; the five raw arguments are emitted to the log sink
(returned here as the middle component) and the call always fails. -/
def syscall_abort (st : SolanaContext) (a1 a2 a3 a4 a5 : Nat) :
    SolanaContext × List Nat × SyscallEffect :=
  (st, [a1, a2, a3, a4, a5], SyscallEffect.failure SyscallError.programAborted)

/-- Embedding of `SyscallMemcpy` (`syscalls.rs` lines 69-103): charge `n`,
resolve destination (store) then source (load), fail with a memory fault if
either resolution fails, and only then copy. -/
def syscall_memcpy (st : SolanaContext) (layout : MemLayout)
    (dst_addr src_addr n : Nat) : SolanaContext × SyscallEffect :=
  let st2 := consume_gas st n
  match resolve layout AccessType.store dst_addr n with
  | none => (st2, SyscallEffect.failure SyscallError.memoryFault)
  | some _ =>
    match read_range layout src_addr n with
    | none => (st2, SyscallEffect.failure SyscallError.memoryFault)
    | some bytes => (st2, SyscallEffect.success 0 (write_range layout dst_addr bytes))

/-- Embedding of `SyscallMemmove` (`syscalls.rs` lines 107-145): identical
resolution behavior to memcpy; the source bytes are read in full before the
destination is overwritten, which is the overlap-correct semantics of
`core::ptr::copy`. -/
def syscall_memmove (st : SolanaContext) (layout : MemLayout)
    (dst_addr src_addr n : Nat) : SolanaContext × SyscallEffect :=
  let st2 := consume_gas st n
  match resolve layout AccessType.store dst_addr n with
  | none => (st2, SyscallEffect.failure SyscallError.memoryFault)
  | some _ =>
    match read_range layout src_addr n with
    | none => (st2, SyscallEffect.failure SyscallError.memoryFault)
    | some bytes => (st2, SyscallEffect.success 0 (write_range layout dst_addr bytes))

/-- Embedding of `SyscallMemset` (`syscalls.rs` lines 149-177): charge `n`,
resolve the destination (store), fill with `c as u8`. -/
def syscall_memset (st : SolanaContext) (layout : MemLayout)
    (addr c n : Nat) : SolanaContext × SyscallEffect :=
  let st2 := consume_gas st n
  match resolve layout AccessType.store addr n with
  | none => (st2, SyscallEffect.failure SyscallError.memoryFault)
  | some _ =>
    (st2, SyscallEffect.success 0 (write_range layout addr (List.replicate n (c % 256))))

/-- Ordering of two byte sequences, as Rust `<[u8]>::cmp` computes it
(lexicographic, length as tie-break). -/
def cmp_bytes : List Nat → List Nat → Ordering
  | [], [] => Ordering.eq
  | [], _ :: _ => Ordering.lt
  | _ :: _, [] => Ordering.gt
  | x :: xs, y :: ys =>
    match compare x y with
    | Ordering.eq => cmp_bytes xs ys
    | o => o

/-- The `i32` result of the comparison in `SyscallMemcmp` (`syscalls.rs`
lines 216-220): `-1`, `0` or `1`. -/
def memcmp_ord (a b : List Nat) : Int :=
  match cmp_bytes a b with
  | Ordering.lt => -1
  | Ordering.eq => 0
  | Ordering.gt => 1

/-- Rust `i32 as u64` for an `i32` value: two's-complement reinterpretation
into 64 bits (sign extension). -/
def i32_as_u64 (i : Int) : Nat := (i % (2 : Int) ^ 64).toNat

/-- Embedding of `SyscallMemcmp` (`syscalls.rs` lines 181-224): charge `n`,
resolve both ranges (load), compare lexicographically and return the signed
32-bit result in the `u64` return slot. -/
def syscall_memcmp (st : SolanaContext) (layout : MemLayout)
    (addr1 addr2 n : Nat) : SolanaContext × SyscallEffect :=
  let st2 := consume_gas st n
  match read_range layout addr1 n with
  | none => (st2, SyscallEffect.failure SyscallError.memoryFault)
  | some s1 =>
    match read_range layout addr2 n with
    | none => (st2, SyscallEffect.failure SyscallError.memoryFault)
    | some s2 => (st2, SyscallEffect.success (i32_as_u64 (memcmp_ord s1 s2)) layout)

/-- Tags for the native implementations registered in the syscall table. -/
inductive SyscallImpl where
  | log
  | abortImpl
  | memcpy
  | memmove
  | memset
  | memcmp
  deriving DecidableEq, Repr

/-- Embedding of `register_syscalls` (`syscalls.rs` lines 228-239): the ABI
name-to-implementation bindings, in registration order. -/
def register_syscalls : List (String × SyscallImpl) :=
  [("sol_log_", SyscallImpl.log),
   ("abort", SyscallImpl.abortImpl),
   ("sol_panic_", SyscallImpl.abortImpl),
   ("sol_memcpy_", SyscallImpl.memcpy),
   ("sol_memmove_", SyscallImpl.memmove),
   ("sol_memset_", SyscallImpl.memset),
   ("sol_memcmp_", SyscallImpl.memcmp)]

/-- A small mapped layout and an out-of-bounds operand used to exhibit the
bounds-failure behavior of the syscalls: one writable 10-byte region at
address 100, probed with address 100 and length 11 (end exceeds the region). -/
def demo_layout : MemLayout :=
  [{ start := 100, bytes := List.replicate 10 7, writable := true }]

/-- C2: on a resolution failure the four mem* syscalls return a memory fault
without touching memory, but the log syscall does not return an error at all:
its `map_err(..).unwrap()` panics.  Exhibited on `demo_layout` with an
address/length pair whose end exceeds the only mapped region. -/
theorem syscall_log_panics_on_fault :
    (syscall_log initialContext demo_layout 100 11).2 = SyscallEffect.panicked ∧
    (syscall_log initialContext demo_layout 100 11).2
      ≠ SyscallEffect.failure SyscallError.memoryFault ∧
    (syscall_memcpy initialContext demo_layout 100 100 11).2
      = SyscallEffect.failure SyscallError.memoryFault ∧
    (syscall_memmove initialContext demo_layout 100 100 11).2
      = SyscallEffect.failure SyscallError.memoryFault ∧
    (syscall_memset initialContext demo_layout 100 0 11).2
      = SyscallEffect.failure SyscallError.memoryFault ∧
    (syscall_memcmp initialContext demo_layout 100 100 11).2
      = SyscallEffect.failure SyscallError.memoryFault := by
  decide

/-- C6: the abort syscall performs no memory access (it never consults the
layout), charges 0 units (the meter is returned unchanged), always fails, and
carries the five raw call arguments to the log sink for diagnostics; both the
`abort` and `sol_panic_` table entries are bound to the same abort
implementation. -/
theorem abort_syscall_spec (st : SolanaContext) (a1 a2 a3 a4 a5 : Nat) :
    syscall_abort st a1 a2 a3 a4 a5
      = (st, [a1, a2, a3, a4, a5], SyscallEffect.failure SyscallError.programAborted)
    ∧ List.lookup "abort" register_syscalls = some SyscallImpl.abortImpl
    ∧ List.lookup "sol_panic_" register_syscalls = some SyscallImpl.abortImpl :=
  ⟨rfl, by decide, by decide⟩

theorem cmp_bytes_eq_iff (a : List Nat) : ∀ b, cmp_bytes a b = Ordering.eq ↔ a = b := by
  induction a with
  | nil => intro b; cases b <;> simp [cmp_bytes]
  | cons x xs ih =>
    intro b
    cases b with
    | nil => simp [cmp_bytes]
    | cons y ys =>
      simp only [cmp_bytes]
      cases hc : compare x y with
      | lt =>
        have hne : x ≠ y := Nat.ne_of_lt (Nat.compare_eq_lt.mp hc)
        simp [hne]
      | eq =>
        have hxy : x = y := Nat.compare_eq_eq.mp hc
        subst hxy
        simp [ih ys]
      | gt =>
        have hne : x ≠ y := Ne.symm (Nat.ne_of_lt (Nat.compare_eq_gt.mp hc))
        simp [hne]

theorem cmp_bytes_lt_of_first_diff (a : List Nat) :
    ∀ (b : List Nat) (i : Nat), i < a.length → i < b.length →
      (∀ j, j < i → a.getD j 0 = b.getD j 0) →
      a.getD i 0 < b.getD i 0 → cmp_bytes a b = Ordering.lt := by
  induction a with
  | nil => intro b i hia; simp at hia
  | cons x xs ih =>
    intro b i hia hib hpre hdiff
    cases b with
    | nil => simp at hib
    | cons y ys =>
      cases i with
      | zero =>
        have hxy : x < y := by simpa using hdiff
        simp [cmp_bytes, Nat.compare_eq_lt.mpr hxy]
      | succ k =>
        have hxy : x = y := by simpa using hpre 0 (Nat.succ_pos k)
        subst hxy
        simp only [cmp_bytes, Nat.compare_eq_eq.mpr rfl]
        exact ih ys k (by simpa using hia) (by simpa using hib)
          (fun j hj => by simpa using hpre (j + 1) (by omega))
          (by simpa using hdiff)

theorem cmp_bytes_gt_of_first_diff (a : List Nat) :
    ∀ (b : List Nat) (i : Nat), i < a.length → i < b.length →
      (∀ j, j < i → a.getD j 0 = b.getD j 0) →
      b.getD i 0 < a.getD i 0 → cmp_bytes a b = Ordering.gt := by
  induction a with
  | nil => intro b i hia; simp at hia
  | cons x xs ih =>
    intro b i hia hib hpre hdiff
    cases b with
    | nil => simp at hib
    | cons y ys =>
      cases i with
      | zero =>
        have hxy : y < x := by simpa using hdiff
        simp [cmp_bytes, Nat.compare_eq_gt.mpr hxy]
      | succ k =>
        have hxy : x = y := by simpa using hpre 0 (Nat.succ_pos k)
        subst hxy
        simp only [cmp_bytes, Nat.compare_eq_eq.mpr rfl]
        exact ih ys k (by simpa using hia) (by simpa using hib)
          (fun j hj => by simpa using hpre (j + 1) (by omega))
          (by simpa using hdiff)

/-- C5: for equal-length byte buffers, `SyscallMemcmp` computes the standard
lexicographic comparison as a signed value: `0` exactly on equal buffers,
`-1` when the first differing byte of the first buffer is smaller, `1` when
it is larger; the syscall returns that value (as `i32 as u64`) whenever both
operand ranges resolve, after charging `n` units. -/
theorem memcmp_lexicographic (a b : List Nat) (h : a.length = b.length) :
    (memcmp_ord a b = 0 ↔ a = b) ∧
    (∀ i, i < a.length → (∀ j, j < i → a.getD j 0 = b.getD j 0) →
      (a.getD i 0 < b.getD i 0 → memcmp_ord a b = -1) ∧
      (b.getD i 0 < a.getD i 0 → memcmp_ord a b = 1)) ∧
    (∀ st layout p q n, read_range layout p n = some a →
      read_range layout q n = some b →
      syscall_memcmp st layout p q n
        = (consume_gas st n, SyscallEffect.success (i32_as_u64 (memcmp_ord a b)) layout)) := by
  refine ⟨?_, ?_, ?_⟩
  · constructor
    · intro h0
      cases hc : cmp_bytes a b <;> simp [memcmp_ord, hc] at h0 ⊢
      exact (cmp_bytes_eq_iff a b).mp hc
    · rintro rfl
      simp [memcmp_ord, (cmp_bytes_eq_iff a a).mpr rfl]
  · intro i hi hpre
    constructor
    · intro hlt
      rw [memcmp_ord, cmp_bytes_lt_of_first_diff a b i hi (h ▸ hi) hpre hlt]
    · intro hgt
      rw [memcmp_ord, cmp_bytes_gt_of_first_diff a b i hi (h ▸ hi) hpre hgt]
  · intro st layout p q n h1 h2
    simp [syscall_memcmp, h1, h2]

theorem memcmp_lexicographic_witness :
    ([0, 0] : List Nat).length = ([255, 255] : List Nat).length ∧
    ((memcmp_ord [0, 0] [255, 255] = 0 ↔ ([0, 0] : List Nat) = [255, 255]) ∧
      (∀ i, i < ([0, 0] : List Nat).length →
        (∀ j, j < i → ([0, 0] : List Nat).getD j 0 = ([255, 255] : List Nat).getD j 0) →
        (([0, 0] : List Nat).getD i 0 < ([255, 255] : List Nat).getD i 0 →
          memcmp_ord [0, 0] [255, 255] = -1) ∧
        (([255, 255] : List Nat).getD i 0 < ([0, 0] : List Nat).getD i 0 →
          memcmp_ord [0, 0] [255, 255] = 1)) ∧
      (∀ st layout p q n, read_range layout p n = some [0, 0] →
        read_range layout q n = some [255, 255] →
        syscall_memcmp st layout p q n
          = (consume_gas st n,
              SyscallEffect.success (i32_as_u64 (memcmp_ord [0, 0] [255, 255])) layout))) :=
  ⟨rfl, memcmp_lexicographic [0, 0] [255, 255] rfl⟩

/-! ## Pubkey text parsing (`runtime.rs`) -/

/-- Modelled from the spec: the Bitcoin base-58 alphabet the `bs58` crate
decodes with. -/
def base58_alphabet : List Char :=
  "123456789ABCDEFGHJKLMNPQRSTUVWXYZabcdefghijkmnopqrstuvwxyz".toList

/-- Modelled from the spec: the value of one base-58 character; `none` for a
character outside the alphabet. -/
def b58_digit (c : Char) : Option Nat := base58_alphabet.indexOf? c

/-- Big-endian base-256 digits of `n` (no leading zero byte), with explicit
fuel so the definition evaluates by kernel reduction; `fuel = n` always
suffices since the value shrinks by a factor 256 per digit. -/
def nat_be_bytes_go : Nat → Nat → List Nat
  | 0, _ => []
  | fuel + 1, n => if n = 0 then [] else nat_be_bytes_go fuel (n / 256) ++ [n % 256]

/-- Big-endian byte representation of a natural number. -/
def nat_be_bytes (n : Nat) : List Nat := nat_be_bytes_go n n

/-- Modelled from the spec: `bs58::decode(..).into_vec()` — fails on any
character outside the alphabet; otherwise each leading `'1'` contributes one
zero byte and the digit string contributes the big-endian bytes of its
base-58 value. -/
def b58_decode (s : String) : Option (List Nat) :=
  match s.toList.mapM b58_digit with
  | none => none
  | some ds =>
    let zeros := (s.toList.takeWhile fun c => c = '1').length
    some (List.replicate zeros 0
      ++ nat_be_bytes (ds.foldl (fun acc d => acc * 58 + d) 0))

/-- The two error shapes of `Pubkey::try_from` (`runtime.rs`): a decoded
length other than 32 (the Rust code formats the offending length into the
message), or text that is not valid base-58. -/
inductive PubkeyError where
  | invalidLength : Nat → PubkeyError
  | invalidEncoding
  deriving DecidableEq, Repr

/-- Embedding of `Pubkey::try_from` (`runtime.rs` lines 29-51), over the
modelled decoder: accept exactly a successful decode of exactly 32 bytes. -/
def pubkey_try_from (s : String) : Except PubkeyError (List Nat) :=
  match b58_decode s with
  | some bytes =>
    if bytes.length = 32 then Except.ok bytes
    else Except.error (PubkeyError.invalidLength bytes.length)
  | none => Except.error PubkeyError.invalidEncoding

/-- C9: constructing a `Pubkey` from text succeeds exactly when the text is
valid base-58 and decodes to exactly 32 bytes, in which case the resulting
bytes are the decoded bytes; any other decoded length and any invalid
character are rejected with the corresponding error. -/
theorem pubkey_try_from_spec (s : String) (bytes : List Nat) :
    (pubkey_try_from s = Except.ok bytes
      ↔ (b58_decode s = some bytes ∧ bytes.length = 32)) ∧
    (b58_decode s = none →
      pubkey_try_from s = Except.error PubkeyError.invalidEncoding) ∧
    (∀ bs, b58_decode s = some bs → bs.length ≠ 32 →
      pubkey_try_from s = Except.error (PubkeyError.invalidLength bs.length)) := by
  refine ⟨?_, ?_, ?_⟩
  · cases hd : b58_decode s with
    | none => simp [pubkey_try_from, hd]
    | some bs =>
      by_cases hl : bs.length = 32
      · simp only [pubkey_try_from, hd, if_pos hl]
        constructor
        · intro h
          have hb : bs = bytes := by injection h
          subst hb
          exact ⟨rfl, hl⟩
        · rintro ⟨h1, h2⟩
          have hb : bs = bytes := by injection h1
          subst hb
          rfl
      · simp only [pubkey_try_from, hd, if_neg hl]
        constructor
        · intro h; simp at h
        · rintro ⟨h1, h2⟩
          have hb : bs = bytes := by injection h1
          subst hb
          exact absurd h2 hl
  · intro hd
    simp [pubkey_try_from, hd]
  · intro bs hd hne
    simp [pubkey_try_from, hd, if_neg hne]

theorem pubkey_try_from_spec_witness :
    pubkey_try_from "11111111111111111111111111111111"
      = Except.ok (List.replicate 32 0) :=
  (pubkey_try_from_spec "11111111111111111111111111111111" (List.replicate 32 0)).1.mpr
    ⟨by decide, by decide⟩
